import Mathlib

/-!
Shallow embedding of the core of `albins-tic-tac-toe`:
the board model (`utils/gameLogic.ts`), the local game controller
(`updateGameLocal` in the hook source), the peer message dispatch on game
state (`handleData` in `usePeerGame`), and the move-search engine
(`utils/ai.ts`).

Conventions of the embedding:
* JS `Player` (`'X' | 'O'`) becomes `Player`; `CellValue` (`Player | null`)
  becomes `Option Player`; a board `CellValue[]` becomes `List (Option Player)`.
* JS array reads `board[i]` are modelled with `List.get?`: `some (some p)` is
  an in-range occupied cell, `some none` an in-range empty cell, and `none`
  an out-of-range read (JS `undefined`).  Where the source distinguishes
  `undefined` from `null` (strict equality against `null` or a player), the
  embedding uses the corresponding exact `get?` pattern.
* JS numbers used for scores are embedded as `ℚ`; the `-Infinity`/`Infinity`
  sentinels of the alpha-beta search live in `WithBot (WithTop ℚ)`.
* `Math.random()` draws are threaded explicitly as a list of rationals
  consumed head first (an exhausted list yields `0`, a valid draw).
* The wall clock is abstracted by a boolean `deadlineHit`: `true` means every
  `nowMs() > deadlineMs` test in the search fires (e.g. a zero-width time
  budget), `false` means none does.
* A JS runtime error (out-of-bounds `!` indexing) is modelled by `none` in an
  `Option` result.
-/

inductive Player
  | X
  | O
deriving DecidableEq, Repr

/-- `other` from `utils/ai.ts`: the opposing player. -/
def other : Player → Player
  | .X => .O
  | .O => .X

abbrev Cell := Option Player
abbrev Board := List Cell

/-- `getWinningCombinations` from `utils/gameLogic.ts`: all length-`winLength`
contiguous runs of cell indices, rows first, then columns, then ↘ diagonals,
then ↙ diagonals.  The JS loop bound `c <= size - winLength` runs
`max 0 (size - winLength + 1)` times, which is `size + 1 - winLength` in ℕ. -/
def getWinningCombinations (size winLength : Nat) : List (List Nat) :=
  let rows := (List.range size).flatMap (fun r =>
    (List.range (size + 1 - winLength)).map (fun c =>
      (List.range winLength).map (fun k => r * size + (c + k))))
  let cols := (List.range size).flatMap (fun c =>
    (List.range (size + 1 - winLength)).map (fun r =>
      (List.range winLength).map (fun k => (r + k) * size + c)))
  let diagDown := (List.range (size + 1 - winLength)).flatMap (fun r =>
    (List.range (size + 1 - winLength)).map (fun c =>
      (List.range winLength).map (fun k => (r + k) * size + (c + k))))
  let diagUp := (List.range (size + 1 - winLength)).flatMap (fun r =>
    (List.range (size + 1 - winLength)).map (fun c =>
      (List.range winLength).map (fun k => (r + k) * size + (winLength - 1 + c - k))))
  rows ++ cols ++ diagDown ++ diagUp

/-- Integer square root by bounded search, used where the source calls
`Math.sqrt(board.length)` and checks integrality.  Equal to `Nat.sqrt`
(see `natSqrt_eq_sqrt`), but defined through `Nat.findGreatest` so that the
kernel can evaluate it on concrete boards. -/
def natSqrt (n : Nat) : Nat := Nat.findGreatest (fun s => s * s ≤ n) n

/-- The winner a single combination yields in `checkWinner`: the first cell
must be truthy (in range and occupied) and every later cell strictly equal
to it. -/
def comboWinner (board : Board) (combo : List Nat) : Option Player :=
  match combo with
  | [] => none
  | i0 :: rest =>
    match board.get? i0 with
    | some (some p) =>
      if rest.all (fun i => decide (board.get? i = some (some p))) then some p else none
    | _ => none

/-- `checkWinner` from `utils/gameLogic.ts`.  Returns the winner and the
winning line of the first matching combination in enumeration order, or
`none` (both fields null) when there is none or when the board length is not
a perfect square. -/
def checkWinner (board : Board) (winCondition : Nat) : Option (Player × List Nat) :=
  if natSqrt board.length * natSqrt board.length = board.length then
    (getWinningCombinations (natSqrt board.length) winCondition).findSome?
      (fun combo => (comboWinner board combo).map (fun p => (p, combo)))
  else none

/-- The `winner` field of `checkWinner`'s result. -/
def winnerOf (board : Board) (winCondition : Nat) : Option Player :=
  (checkWinner board winCondition).map Prod.fst

/-- `isDraw` from `utils/gameLogic.ts`: every cell is non-null. -/
def isDraw (board : Board) : Bool :=
  board.all (fun cell => cell.isSome)

/-- `isForcedDraw` from `utils/gameLogic.ts`: no player can still complete an
unblocked combination within the alternating turns remaining, `nextPlayer`
moving first. -/
def isForcedDraw (board : Board) (winCondition : Nat) (nextPlayer : Player) : Bool :=
  if natSqrt board.length * natSqrt board.length = board.length then
    let size := natSqrt board.length
    let combinations := getWinningCombinations size winCondition
    let emptyCount := board.countP (fun cell => cell.isNone)
    let movesRemainingFor := fun (player : Player) =>
      if player = nextPlayer then (emptyCount + 1) / 2 else emptyCount / 2
    let hasPotentialWin := fun (player : Player) =>
      let opponent := other player
      combinations.any (fun combo =>
        if combo.any (fun i => decide (board.get? i = some (some opponent))) then false
        else decide
          (combo.countP (fun i => decide (board.get? i = some none)) ≤ movesRemainingFor player))
    !hasPotentialWin Player.X && !hasPotentialWin Player.O
  else false

inductive GameStatus
  | idle
  | playing
  | winner
  | draw
deriving DecidableEq, Repr

structure GameState where
  board : Board
  currentPlayer : Player
  status : GameStatus
  winner : Option Player
  winningLine : Option (List Nat)
  gridSize : Nat
  winCondition : Nat
deriving DecidableEq, Repr

/-- `getInitialGameState` from `utils/gameLogic.ts`. -/
def getInitialGameState (startingPlayer : Player := .X) (gridSize : Nat := 3)
    (winCondition : Nat := 3) : GameState :=
  { board := List.replicate (gridSize * gridSize) none
    currentPlayer := startingPlayer
    status := .playing
    winner := none
    winningLine := none
    gridSize := gridSize
    winCondition := winCondition }

/-- `updateGameLocal` from the `usePeerGame` hook source bundled in
`src/api/get-turn-credentials.ts` (lines 133-156): bail out unchanged when
the target cell is truthy or the game is not playing, otherwise place the
mark, run `checkWinner`/`isDraw`, and flip `currentPlayer`.
The JS guard `prev.board[index]` is truthy exactly when the read is in range
and occupied, i.e. `(prev.board.getD index none).isSome`.  (A JS write past
the end of the array would extend it; `List.set` is a no-op there, so
theorems about this definition restrict `index` to the board's length.) -/
def updateGameLocal (prev : GameState) (index : Nat) (player : Player) : GameState :=
  if (prev.board.getD index none).isSome ∨ prev.status ≠ .playing then prev
  else
    let newBoard := prev.board.set index (some player)
    let w := checkWinner newBoard prev.winCondition
    let draw := isDraw newBoard
    { prev with
      board := newBoard
      currentPlayer := other player
      status := if w.isSome then .winner else if draw then .draw else .playing
      winner := w.map Prod.fst
      winningLine := w.map Prod.snd }

/-- Modelled from the spec: `applyMoveToGameState` is exported from
`utils/gameLogic.ts` and consumed by `hooks/useAIGame.ts` and
`hooks/usePeerGame.ts`, but its definition is not among the provided source
files (only an older inline `updateGameLocal` is).  Following spec §4.4:
place `player` at `index`; evaluate the terminal condition via the board
model; on a win set status Won recording `winner` and `winningLine`; else if
the board is full or `isForcedDraw` holds for the other player now to move,
set status Drawn; else flip `currentPlayer` and remain Playing.  The second
component is the `winnerJustHappened` side channel returned to the caller. -/
def applyMoveToGameState (state : GameState) (index : Nat) (player : Player) :
    GameState × Option Player :=
  let newBoard := state.board.set index (some player)
  match checkWinner newBoard state.winCondition with
  | some (w, line) =>
    ({ state with
        board := newBoard
        status := .winner
        winner := some w
        winningLine := some line }, some w)
  | none =>
    if isDraw newBoard || isForcedDraw newBoard state.winCondition (other player) then
      ({ state with board := newBoard, status := .draw, winner := none }, none)
    else
      ({ state with
          board := newBoard
          currentPlayer := other player
          status := .playing }, none)

/-- The inter-peer messages of `types.ts` that touch game state (the chat,
emoji, nudge, voice and liveness messages never mutate `gameState` and are
collapsed into `inert`). -/
inductive PeerMsg
  | move (index : Nat) (player : Player)
  | reset (startingPlayer : Player)
  | syncState (state : GameState)
  | handshake (gridSize winCondition : Option Nat)
  | inert

/-- The effect of `handleData` in the `usePeerGame` hook source on the
`gameState` cell: `MOVE` goes through the local move application, `RESET`
regenerates initial state with the received starter, `SYNC_STATE` replaces
state wholesale, a host `HANDSHAKE` (truthy `gridSize` and `winCondition`)
rebuilds initial state, everything else leaves game state alone. -/
def handleDataGame (msg : PeerMsg) (current : GameState) : GameState :=
  match msg with
  | .move index player => updateGameLocal current index player
  | .reset startingPlayer =>
    getInitialGameState startingPlayer current.gridSize current.winCondition
  | .syncState s => s
  | .handshake gs wc =>
    match gs, wc with
    | some g, some w => if g ≠ 0 ∧ w ≠ 0 then getInitialGameState .X g w else current
    | _, _ => current
  | .inert => current

/-! ### Move-search engine, `utils/ai.ts` -/

/-- JS numbers as they appear in the alpha-beta search: rationals plus the
`-Infinity` (`⊥`) and `Infinity` (`⊤`) sentinels. -/
abbrev Score := WithBot (WithTop ℚ)

/-- A finite score. -/
def finScore (q : ℚ) : Score := ((q : WithTop ℚ) : Score)

/-- `legalMoves` from `utils/ai.ts`: indices of in-range empty cells, in
increasing order. -/
def legalMoves (board : Board) : List Nat :=
  (List.range board.length).filter (fun i => decide (board.get? i = some none))

/-- `applyMove` from `utils/ai.ts`: copy the board and place `p` at `idx`. -/
def applyMove (board : Board) (idx : Nat) (p : Player) : Board :=
  board.set idx (some p)

/-- `findImmediateWin` from `utils/ai.ts`: the first legal move that makes
`p` the winner, if any. -/
def findImmediateWin (board : Board) (winCondition : Nat) (p : Player) : Option Nat :=
  (legalMoves board).find?
    (fun m => decide (winnerOf (applyMove board m p) winCondition = some p))

/-- `evaluateBoard` from `utils/ai.ts`: the heuristic static evaluator.
Per combination, a blocked or untouched line scores 0, otherwise
`10^(count-1)` is added for the AI's marks and subtracted for the
opponent's; a small center bias of `1/2` is applied at `⌊length/2⌋`. -/
def evaluateBoard (board : Board) (gridSize winCondition : Nat) (ai : Player) : ℚ :=
  let opp := other ai
  let combos := getWinningCombinations gridSize winCondition
  let lineScore := fun (combo : List Nat) =>
    let aiCount := combo.countP (fun i => decide (board.get? i = some (some ai)))
    let oppCount := combo.countP (fun i => decide (board.get? i = some (some opp)))
    if 0 < aiCount ∧ 0 < oppCount then (0 : ℚ)
    else if aiCount = 0 ∧ oppCount = 0 then 0
    else (if 0 < aiCount then (10 : ℚ) ^ (aiCount - 1) else 0)
      - (if 0 < oppCount then (10 : ℚ) ^ (oppCount - 1) else 0)
  let base := (combos.map lineScore).sum
  let center := board.length / 2
  let base := if board.get? center = some (some ai) then base + 1/2 else base
  if board.get? center = some (some opp) then base - 1/2 else base

/-- The maximizing alpha-beta loop of `minimaxAB` (`toMove === ai`): fold the
moves, keeping `best`/`alpha` and breaking as soon as `beta <= alpha`. -/
def abMaxLoop (step : Nat → Score → Score → Score) (beta : Score) :
    List Nat → Score → Score → Score
  | [], best, _alpha => best
  | m :: rest, best, alpha =>
    let s := step m alpha beta
    let best' := max best s
    let alpha' := max alpha best'
    if beta ≤ alpha' then best' else abMaxLoop step beta rest best' alpha'

/-- The minimizing alpha-beta loop of `minimaxAB` (opponent to move). -/
def abMinLoop (step : Nat → Score → Score → Score) (alpha : Score) :
    List Nat → Score → Score → Score
  | [], best, _beta => best
  | m :: rest, best, beta =>
    let s := step m alpha beta
    let best' := min best s
    let beta' := min beta best'
    if beta' ≤ alpha then best' else abMinLoop step alpha rest best' beta'

/-- `minimaxAB` from `utils/ai.ts`.  The wall-clock test
`nowMs() > deadlineMs` is abstracted by the fixed boolean `deadlineHit`. -/
def minimaxAB (gridSize winCondition : Nat) (ai : Player) (deadlineHit : Bool)
    (board : Board) (toMove : Player) (depth : Nat) (alpha beta : Score) : Score :=
  if deadlineHit then finScore (evaluateBoard board gridSize winCondition ai)
  else if winnerOf board winCondition = some ai then
    finScore (1000000 + (depth : ℚ))
  else if winnerOf board winCondition = some (other ai) then
    finScore (-1000000 - (depth : ℚ))
  else if isDraw board ∨ depth = 0 then
    finScore (evaluateBoard board gridSize winCondition ai)
  else
    let moves := legalMoves board
    if toMove = ai then
      abMaxLoop
        (fun m a b =>
          minimaxAB gridSize winCondition ai deadlineHit
            (applyMove board m toMove) (other toMove) (depth - 1) a b)
        beta moves ⊥ alpha
    else
      abMinLoop
        (fun m a b =>
          minimaxAB gridSize winCondition ai deadlineHit
            (applyMove board m toMove) (other toMove) (depth - 1) a b)
        alpha moves ⊤ beta
termination_by depth
decreasing_by all_goals omega

/-- `pickTopK` from `utils/ai.ts`: stable-sort by score descending (the JS
comparator `b.s - a.s`), keep the first `min k length` entries, and index by
`⌊r * top.length⌋` where `r` is the `Math.random()` draw.  An out-of-range
index (a JS runtime error on the `!` assertion) is `none`. -/
def pickTopK {α : Type} [LinearOrder α] (scored : List (Nat × α)) (k : Nat) (r : ℚ) :
    Option Nat :=
  let sorted := scored.mergeSort (fun a b => decide (b.2 ≤ a.2))
  let top := sorted.take (min k sorted.length)
  let idx := ⌊r * (top.length : ℚ)⌋
  if idx < 0 then none else (top.get? idx.toNat).map Prod.fst

inductive AiLevel
  | easy
  | medium
  | hard
  | extreme
deriving DecidableEq, Repr

/-- The wall-clock budget of `chooseAiMove` (`utils/ai.ts` line 173):
`level === 'hard' ? 80 : 30` milliseconds. -/
def timeBudgetMs (level : AiLevel) : Nat :=
  if level = .hard then 80 else 30

/-- The search depth of `chooseAiMove` (`utils/ai.ts` lines 177-181), given
the level, grid size, number of legal moves and win condition. -/
def searchDepth (level : AiLevel) (gridSize movesLen winCondition : Nat) : Nat :=
  if gridSize = 3 ∧ winCondition = 3 then movesLen
  else if gridSize = 4 then (if level = .hard then 5 else 4)
  else if gridSize = 5 then (if level = .hard then 4 else 3)
  else (if level = .hard then 3 else 2)

/-- The top-K width of `chooseAiMove` (`utils/ai.ts` line 184):
`level === 'hard' ? 1 : 3`. -/
def topKOf (level : AiLevel) : Nat :=
  if level = .hard then 1 else 3

/-- Draw the next `Math.random()` value from the explicit stream; an
exhausted stream yields `0` (a legal draw). -/
def nextRand (rng : List ℚ) : ℚ × List ℚ := (rng.headD 0, rng.tail)

/-- The scored shortlist of the easy branch: every legal move evaluated by
the heuristic after playing it, with a `100000` penalty when it hands the
opponent an immediate win. -/
def easyScored (board : Board) (gridSize winCondition : Nat) (ai : Player)
    (moves : List Nat) : List (Nat × ℚ) :=
  moves.map (fun m =>
    let after := applyMove board m ai
    let s := evaluateBoard after gridSize winCondition ai
    let s := if (findImmediateWin after winCondition (other ai)).isSome then s - 100000
      else s
    (m, s))

/-- The tail of the easy branch after the block and center shortcuts: with
probability `0.8` pick among the top 5 scored moves, otherwise play a
uniformly random legal move. -/
def easyRandomPhase (board : Board) (gridSize winCondition : Nat) (ai : Player)
    (moves : List Nat) (rng : List ℚ) : Option Int :=
  let scored := easyScored board gridSize winCondition ai moves
  if (nextRand rng).1 < 4/5 then
    (pickTopK scored 5 (nextRand (nextRand rng).2).1).map Int.ofNat
  else
    let idx := ⌊(nextRand (nextRand rng).2).1 * (moves.length : ℚ)⌋
    if idx < 0 then none else (moves.get? idx.toNat).map Int.ofNat

/-- The easy branch after the probabilistic block: prefer a free center on
odd-sized boards with probability `0.45`, then fall through to
`easyRandomPhase`. -/
def easyCenterPhase (board : Board) (gridSize winCondition : Nat) (ai : Player)
    (moves : List Nat) (rng : List ℚ) : Option Int :=
  let center := board.length / 2
  if gridSize % 2 = 1 ∧ board.get? center = some none then
    if (nextRand rng).1 < 9/20 then some (Int.ofNat center)
    else easyRandomPhase board gridSize winCondition ai moves (nextRand rng).2
  else easyRandomPhase board gridSize winCondition ai moves rng

/-- The `level === 'easy'` branch of `chooseAiMove`: block a one-move loss
with probability `0.75`, then `easyCenterPhase`/`easyRandomPhase` —
intentional weakness, per the source comments. -/
def easyMove (board : Board) (gridSize winCondition : Nat) (ai : Player)
    (moves : List Nat) (rng : List ℚ) : Option Int :=
  match findImmediateWin board winCondition (other ai) with
  | some mustBlock =>
    if (nextRand rng).1 < 3/4 then some (Int.ofNat mustBlock)
    else easyCenterPhase board gridSize winCondition ai moves (nextRand rng).2
  | none => easyCenterPhase board gridSize winCondition ai moves rng

/-- `chooseAiMove` from `utils/ai.ts`.  Randomness is the explicit stream
`rng` (consumed exactly as `Math.random()` is called in the source) and the
wall clock is the abstract `deadlineHit` flag; the result is `none` only on
a JS runtime error (never reached, see the safety theorem), `some (-1)` on
an empty move set, and otherwise the chosen index. -/
def chooseAiMove (board : Board) (gridSize winCondition : Nat) (ai : Player)
    (level : AiLevel) (rng : List ℚ) (deadlineHit : Bool) : Option Int :=
  let moves := legalMoves board
  if moves.length = 0 then some (-1)
  else match findImmediateWin board winCondition ai with
  | some winNow => some (Int.ofNat winNow)
  | none =>
    let opp := other ai
    if level = .easy then
      easyMove board gridSize winCondition ai moves rng
    else match findImmediateWin board winCondition opp with
    | some blockNow => some (blockNow : Int)
    | none =>
      let depth := searchDepth level gridSize moves.length winCondition
      let topK := topKOf level
      let scored := moves.map (fun m =>
        (m, minimaxAB gridSize winCondition ai deadlineHit
              (applyMove board m ai) opp (depth - 1) ⊥ ⊤))
      (pickTopK scored topK (nextRand rng).1).map Int.ofNat

/-- Written from the spec's words (for the refinement comparison of the
forced-draw test): on an `n × n` board, player `p` "can still complete" a
winning combination when some combination contains no opponent mark and its
empty-cell count is at most `p`'s remaining turns under strict alternation
starting with `nextPlayer` — `⌈emptyCount/2⌉` turns for `nextPlayer`,
`⌊emptyCount/2⌋` for the other player. -/
def specCanComplete (n : Nat) (board : Board) (winCondition : Nat)
    (nextPlayer p : Player) : Prop :=
  ∃ combo ∈ getWinningCombinations n winCondition,
    (∀ i ∈ combo, board.get? i ≠ some (some (other p)))
    ∧ combo.countP (fun i => decide (board.get? i = some none)) ≤
        (if p = nextPlayer then (board.countP (fun c => c.isNone) + 1) / 2
         else board.countP (fun c => c.isNone) / 2)

/-! ### General lemmas about the embedding -/

theorem natSqrt_eq_sqrt (n : Nat) : natSqrt n = Nat.sqrt n := by
  unfold natSqrt
  refine le_antisymm ?_ (Nat.le_findGreatest (Nat.sqrt_le_self n) (Nat.sqrt_le n))
  by_cases h0 : Nat.findGreatest (fun s => s * s ≤ n) n = 0
  · simp [h0]
  · exact Nat.le_sqrt.2
      (Nat.findGreatest_of_ne_zero (P := fun s => s * s ≤ n) rfl h0)

theorem mem_legalMoves {board : Board} {m : Nat} :
    m ∈ legalMoves board ↔ board.get? m = some none := by
  simp only [legalMoves, List.mem_filter, List.mem_range, decide_eq_true_eq]
  constructor
  · exact fun h => h.2
  · intro h
    refine ⟨?_, h⟩
    rcases Nat.lt_or_ge m board.length with hlt | hge
    · exact hlt
    · rw [List.get?_eq_none.2 hge] at h
      exact absurd h (by simp)

theorem legalMoves_ne_nil {board : Board} (h : ∃ i, board.get? i = some none) :
    legalMoves board ≠ [] := by
  obtain ⟨i, hi⟩ := h
  intro hnil
  have hmem := mem_legalMoves.2 hi
  rw [hnil] at hmem
  exact absurd hmem (List.not_mem_nil i)

theorem findImmediateWin_legal {board : Board} {wc : Nat} {p : Player} {m : Nat}
    (h : findImmediateWin board wc p = some m) :
    board.get? m = some none ∧ winnerOf (applyMove board m p) wc = some p := by
  unfold findImmediateWin at h
  have hp := List.find?_some h
  simp only [decide_eq_true_eq] at hp
  exact ⟨mem_legalMoves.1 (List.mem_of_find?_eq_some h), hp⟩

theorem findImmediateWin_isSome {board : Board} {wc : Nat} {p : Player} {m : Nat}
    (hm : board.get? m = some none)
    (hw : winnerOf (applyMove board m p) wc = some p) :
    (findImmediateWin board wc p).isSome := by
  unfold findImmediateWin
  rw [List.find?_isSome]
  exact ⟨m, mem_legalMoves.2 hm, decide_eq_true hw⟩

theorem findImmediateWin_eq_none {board : Board} {wc : Nat} {p : Player}
    (h : ∀ m, board.get? m = some none → winnerOf (applyMove board m p) wc ≠ some p) :
    findImmediateWin board wc p = none := by
  unfold findImmediateWin
  rw [List.find?_eq_none]
  intro x hx hc
  exact h x (mem_legalMoves.1 hx) (of_decide_eq_true hc)

theorem floor_rand_index {L : Nat} (hL : 0 < L) {r : ℚ} (h0 : 0 ≤ r) (h1 : r < 1) :
    0 ≤ ⌊r * (L : ℚ)⌋ ∧ (⌊r * (L : ℚ)⌋).toNat < L := by
  have hnn : 0 ≤ ⌊r * (L : ℚ)⌋ :=
    Int.floor_nonneg.2 (mul_nonneg h0 (by positivity))
  have hlt : ⌊r * (L : ℚ)⌋ < (L : ℤ) := by
    apply Int.floor_lt.2
    push_cast
    calc r * (L : ℚ) < 1 * (L : ℚ) :=
          mul_lt_mul_of_pos_right h1 (by exact_mod_cast hL)
      _ = (L : ℚ) := one_mul _
  exact ⟨hnn, by omega⟩

theorem pickTopK_legal {α : Type} [LinearOrder α] (scored : List (Nat × α)) (k : Nat) (r : ℚ)
    (hs : scored ≠ []) (hk : 0 < k) (h0 : 0 ≤ r) (h1 : r < 1) :
    ∃ n, pickTopK scored k r = some n ∧ n ∈ scored.map Prod.fst := by
  unfold pickTopK
  have hperm := List.mergeSort_perm scored (fun a b => decide (b.2 ≤ a.2))
  set sorted := scored.mergeSort (fun a b => decide (b.2 ≤ a.2)) with hsorted
  have hlenpos : 0 < sorted.length := by
    rw [hperm.length_eq]
    exact List.length_pos.2 hs
  set top := sorted.take (min k sorted.length) with htop
  have htoplen : top.length = min k sorted.length := by
    rw [htop, List.length_take]
    have := min_le_right k sorted.length
    omega
  have htoppos : 0 < top.length := by
    rw [htoplen]
    exact lt_min hk hlenpos
  obtain ⟨hnn, hlt⟩ := floor_rand_index htoppos h0 h1
  rw [if_neg (not_lt.2 hnn), List.get?_eq_get hlt]
  refine ⟨(top.get ⟨_, hlt⟩).1, rfl, ?_⟩
  exact List.mem_map_of_mem Prod.fst
    (hperm.subset (List.take_subset _ _ (List.get_mem top _ _)))

theorem nextRand_bounds {rng : List ℚ} (h : ∀ x ∈ rng, 0 ≤ x ∧ x < 1) :
    (0 ≤ (nextRand rng).1 ∧ (nextRand rng).1 < 1) ∧
      ∀ x ∈ (nextRand rng).2, 0 ≤ x ∧ x < 1 := by
  unfold nextRand
  cases rng with
  | nil =>
    refine ⟨⟨le_refl 0, by norm_num⟩, ?_⟩
    intro x hx
    exact absurd hx (List.not_mem_nil x)
  | cons a l =>
    exact ⟨⟨(h a (.head _)).1, (h a (.head _)).2⟩, fun x hx => h x (.tail _ hx)⟩

/-! ### Claim theorems -/

/-- C10: for every board whose length is not a perfect square and every win
condition, `checkWinner` is total and returns a null winner and null line
(it neither throws nor reports a winner). -/
theorem checkWinner_non_square_board (board : Board) (winCondition : Nat)
    (h : ∀ s : Nat, s * s ≠ board.length) :
    checkWinner board winCondition = none := by
  unfold checkWinner
  exact if_neg (h (natSqrt board.length))

/-- Witness for C10 at the length-2 board `[null, null]`. -/
theorem checkWinner_non_square_board_witness :
    checkWinner [none, none] 3 = none := by
  apply checkWinner_non_square_board
  intro s hs
  have hcase : s = 0 ∨ s = 1 ∨ 2 ≤ s := by omega
  rcases hcase with rfl | rfl | h2
  · simp at hs
  · simp at hs
  · have : 4 ≤ s * s := Nat.mul_le_mul h2 h2
    simp only [List.length_cons, List.length_nil] at hs
    omega

/-- C9: on a board with no empty cell (an empty move set) `chooseAiMove`
signals invalid input by returning the sentinel `-1`, which is not a board
index, rather than any move. -/
theorem chooseAiMove_empty_move_set (board : Board) (gridSize winCondition : Nat)
    (ai : Player) (level : AiLevel) (rng : List ℚ) (deadlineHit : Bool)
    (h : isDraw board = true) :
    chooseAiMove board gridSize winCondition ai level rng deadlineHit = some (-1)
    ∧ ∀ n : Nat,
        chooseAiMove board gridSize winCondition ai level rng deadlineHit ≠ some (n : Int) := by
  have hlm : legalMoves board = [] := by
    unfold legalMoves
    rw [List.filter_eq_nil]
    intro i hi
    simp only [decide_eq_true_eq]
    intro hc
    unfold isDraw at h
    rw [List.all_eq_true] at h
    have hmem := List.get?_mem hc
    have := h none hmem
    simp at this
  have hmain : chooseAiMove board gridSize winCondition ai level rng deadlineHit = some (-1) := by
    unfold chooseAiMove
    rw [hlm]
    rfl
  refine ⟨hmain, ?_⟩
  intro n hc
  rw [hmain] at hc
  have hv : (-1 : Int) = (n : Int) := by injection hc
  omega

/-- Witness for C9 at a full 1x1 board. -/
theorem chooseAiMove_empty_move_set_witness :
    chooseAiMove [some Player.X] 1 3 Player.O AiLevel.hard [] false = some (-1)
    ∧ ∀ n : Nat, chooseAiMove [some Player.X] 1 3 Player.O AiLevel.hard [] false ≠ some (n : Int) :=
  chooseAiMove_empty_move_set [some Player.X] 1 3 Player.O AiLevel.hard [] false (by decide)

/-- C5: in the source, every difficulty test in the search is
`level === 'hard'` or `level === 'easy'`, so `extreme` runs the *medium*
search (30ms budget, medium depth, top-3 selection), not the hard one
(80ms, hard depth, top-1) as the spec claims: `chooseAiMove` at `extreme`
is extensionally the `medium` engine, and the concrete tuning parameters at
`extreme` differ from `hard` on every larger board. -/
theorem extreme_search_equals_medium :
    (∀ (board : Board) (gridSize winCondition : Nat) (ai : Player)
        (rng : List ℚ) (deadlineHit : Bool),
      chooseAiMove board gridSize winCondition ai .extreme rng deadlineHit =
        chooseAiMove board gridSize winCondition ai .medium rng deadlineHit)
    ∧ timeBudgetMs .extreme = 30 ∧ timeBudgetMs .hard = 80
    ∧ topKOf .extreme = 3 ∧ topKOf .hard = 1
    ∧ searchDepth .extreme 4 16 4 = 4 ∧ searchDepth .hard 4 16 4 = 5 := by
  refine ⟨?_, by decide, by decide, by decide, by decide, by decide, by decide⟩
  intro board gridSize winCondition ai rng deadlineHit
  rfl

/-- C1 (spec-modelled move application): for every playing state, empty
target cell and `player` equal to `currentPlayer`, the single-move
application places the mark; if the resulting board has a winning
combination the status becomes Won with `winner` and `winningLine`
recorded; otherwise if the board is full or `isForcedDraw` holds for the
other player now to move the status becomes Drawn; otherwise
`currentPlayer` flips and the status stays Playing. -/
theorem applyMoveToGameState_spec (s : GameState) (index : Nat) (player : Player)
    (hstatus : s.status = .playing)
    (hcell : s.board.get? index = some none)
    (hturn : player = s.currentPlayer) :
    (applyMoveToGameState s index player).1.board = s.board.set index (some player)
    ∧ (∀ w line,
        checkWinner (s.board.set index (some player)) s.winCondition = some (w, line) →
          (applyMoveToGameState s index player).1.status = .winner
          ∧ (applyMoveToGameState s index player).1.winner = some w
          ∧ (applyMoveToGameState s index player).1.winningLine = some line)
    ∧ (checkWinner (s.board.set index (some player)) s.winCondition = none →
        ((isDraw (s.board.set index (some player)) = true
            ∨ isForcedDraw (s.board.set index (some player)) s.winCondition (other player) = true) →
          (applyMoveToGameState s index player).1.status = .draw)
        ∧ (isDraw (s.board.set index (some player)) = false →
            isForcedDraw (s.board.set index (some player)) s.winCondition (other player) = false →
            (applyMoveToGameState s index player).1.status = .playing
            ∧ (applyMoveToGameState s index player).1.currentPlayer = other player)) := by
  unfold applyMoveToGameState
  rcases hcw : checkWinner (s.board.set index (some player)) s.winCondition with _ | ⟨w, line⟩ <;>
    simp only [hcw]
  · refine ⟨?_, ?_, ?_⟩
    · split <;> rfl
    · intro w line hsome
      exact absurd hsome (by simp)
    · intro _
      constructor
      · intro hor
        have hcond : (isDraw (s.board.set index (some player))
            || isForcedDraw (s.board.set index (some player)) s.winCondition (other player))
            = true := by
          rcases hor with h | h <;> simp [h]
        simp [hcond]
      · intro hd hf
        simp [hd, hf]
  · refine ⟨by trivial, ?_, ?_⟩
    · intro w' line' hsome
      have h := Option.some.inj hsome
      rw [Prod.mk.injEq] at h
      obtain ⟨rfl, rfl⟩ := h
      refine ⟨by trivial, by trivial, by trivial⟩
    · intro hnone
      exact absurd hnone (by simp)

/-- Witness for C1: X plays cell 0 of a fresh 3x3 game; no winner, no draw,
the turn flips to O and the game stays playing. -/
theorem applyMoveToGameState_spec_witness :
    (applyMoveToGameState (getInitialGameState .X 3 3) 0 .X).1.board =
      (getInitialGameState .X 3 3).board.set 0 (some .X)
    ∧ (applyMoveToGameState (getInitialGameState .X 3 3) 0 .X).1.status = .playing
    ∧ (applyMoveToGameState (getInitialGameState .X 3 3) 0 .X).1.currentPlayer = other .X := by
  have h := applyMoveToGameState_spec (getInitialGameState .X 3 3) 0 .X rfl (by decide) rfl
  refine ⟨h.1, ?_⟩
  have h3 := (h.2.2 (by decide)).2 (by decide) (by decide)
  exact ⟨h3.1, h3.2⟩

/-- C8 counterexample: on a fresh 3x3 game whose mover is X, a received
`MOVE{index 0, player O}` passes only the cell-empty and status-playing
checks, yet it is applied — the game state changes even though the
correct-mover check (O = currentPlayer) fails.  This refutes the claim that
the state is left unchanged whenever any of the three checks fails. -/
theorem move_from_wrong_player_applied :
    handleDataGame (.move 0 .O) (getInitialGameState .X 3 3) ≠ getInitialGameState .X 3 3
    ∧ (getInitialGameState .X 3 3).currentPlayer ≠ .O
    ∧ (getInitialGameState .X 3 3).board.get? 0 = some none
    ∧ (getInitialGameState .X 3 3).status = .playing := by decide

/-- C8 (amended): a received `MOVE{index, player}` is applied to the local
game state exactly like a local input if and only if the target cell is
empty and the status is Playing; no correct-mover check is made (a `MOVE`
naming the non-current player is applied all the same), and the state is
left unchanged exactly when the cell is occupied or the game is over. -/
theorem move_receipt_shape_checks (s : GameState) (index : Nat) (player : Player)
    (hidx : index < s.board.length) :
    (handleDataGame (.move index player) s = s
      ↔ ¬ (s.board.get? index = some none ∧ s.status = .playing))
    ∧ (s.board.get? index = some none → s.status = .playing →
        (handleDataGame (.move index player) s).board.get? index = some (some player)) := by
  have hDG : handleDataGame (.move index player) s = updateGameLocal s index player := rfl
  have happlied : ∀ (hcell : s.board.get? index = some none)
      (hstat : s.status = .playing),
      (updateGameLocal s index player).board = s.board.set index (some player) := by
    intro hcell hstat
    have hguard : ¬ ((s.board.getD index none).isSome = true ∨ s.status ≠ .playing) := by
      push_neg
      refine ⟨?_, hstat⟩
      rw [List.getD_eq_getD_get? s.board none index, hcell]
      simp
    unfold updateGameLocal
    rw [if_neg hguard]
  have hset : (s.board.set index (some player)).get? index = some (some player) :=
    List.get?_set_eq_of_lt (some player) hidx
  constructor
  · constructor
    · intro heq hcond
      obtain ⟨hcell, hstat⟩ := hcond
      have hb := happlied hcell hstat
      rw [← hDG, heq] at hb
      rw [hb] at hcell
      rw [hset] at hcell
      simp at hcell
    · intro hncond
      rw [hDG]
      have hguard : (s.board.getD index none).isSome = true ∨ s.status ≠ .playing := by
        rcases Decidable.em (s.status = .playing) with hs | hs
        · left
          have hA : ¬ s.board.get? index = some none := fun hA => hncond ⟨hA, hs⟩
          obtain ⟨c, hc⟩ : ∃ c, s.board.get? index = some c :=
            ⟨_, List.get?_eq_get hidx⟩
          rw [List.getD_eq_getD_get? s.board none index, hc]
          cases c with
          | none => exact absurd hc hA
          | some p => rfl
        · right
          exact hs
      unfold updateGameLocal
      rw [if_pos hguard]
  · intro hcell hstat
    rw [hDG, happlied hcell hstat]
    exact hset

/-- Witness for C8's amended theorem at a fresh 3x3 game and index 0. -/
theorem move_receipt_shape_checks_witness :
    (handleDataGame (.move 0 .O) (getInitialGameState .X 3 3) = getInitialGameState .X 3 3
      ↔ ¬ ((getInitialGameState .X 3 3).board.get? 0 = some none
            ∧ (getInitialGameState .X 3 3).status = .playing))
    ∧ ((getInitialGameState .X 3 3).board.get? 0 = some none →
        (getInitialGameState .X 3 3).status = .playing →
        (handleDataGame (.move 0 .O) (getInitialGameState .X 3 3)).board.get? 0 =
          some (some .O)) :=
  move_receipt_shape_checks (getInitialGameState .X 3 3) 0 .O (by decide)

/-- C2: whenever some empty cell gives `aiPlayer` an immediate win, then at
every difficulty, for every random stream and any wall-clock state,
`chooseAiMove` returns an immediately winning empty cell. -/
theorem chooseAiMove_takes_immediate_win (board : Board) (gridSize winCondition : Nat)
    (ai : Player) (level : AiLevel) (rng : List ℚ) (deadlineHit : Bool)
    (m : Nat) (hm : board.get? m = some none)
    (hwin : winnerOf (applyMove board m ai) winCondition = some ai) :
    ∃ n : Nat,
      chooseAiMove board gridSize winCondition ai level rng deadlineHit = some (n : Int)
      ∧ board.get? n = some none
      ∧ winnerOf (applyMove board n ai) winCondition = some ai := by
  have hsome : (findImmediateWin board winCondition ai).isSome :=
    findImmediateWin_isSome hm hwin
  obtain ⟨w, hw⟩ := Option.isSome_iff_exists.1 hsome
  obtain ⟨hwlegal, hwwin⟩ := findImmediateWin_legal hw
  have hlen0 : ¬ (legalMoves board).length = 0 :=
    fun hz => legalMoves_ne_nil ⟨m, hm⟩ (List.length_eq_zero.1 hz)
  refine ⟨w, ?_, hwlegal, hwwin⟩
  simp only [chooseAiMove, hw]
  rw [if_neg hlen0]
  rfl

/-- Witness for C2: X to move on `X X _ / _ O O / _ _ _`; cell 2 completes
the top row at every difficulty (here: hard, empty random stream, deadline
already hit). -/
theorem chooseAiMove_takes_immediate_win_witness :
    ∃ n : Nat,
      chooseAiMove [some Player.X, some Player.X, none,
        none, some Player.O, some Player.O, none, none, none] 3 3 Player.X
        AiLevel.hard [] true = some (n : Int)
      ∧ [some Player.X, some Player.X, none,
          none, some Player.O, some Player.O, none, none, none].get? n = some none
      ∧ winnerOf (applyMove [some Player.X, some Player.X, none,
          none, some Player.O, some Player.O, none, none, none] n Player.X) 3 =
          some Player.X :=
  chooseAiMove_takes_immediate_win _ 3 3 Player.X AiLevel.hard [] true 2
    (by decide) (by decide)

/-- C3: when `aiPlayer` has no immediate winning move but the opponent has
one, every difficulty other than easy deterministically (independently of
the random stream and the wall clock) returns a cell at which the opponent
would win — occupying it blocks that immediate win. -/
theorem chooseAiMove_blocks_immediate_loss (board : Board) (gridSize winCondition : Nat)
    (ai : Player) (level : AiLevel)
    (hlvl : level ≠ .easy)
    (hnowin : ∀ m, board.get? m = some none →
        winnerOf (applyMove board m ai) winCondition ≠ some ai)
    (b : Nat) (hb : board.get? b = some none)
    (hoppwin : winnerOf (applyMove board b (other ai)) winCondition = some (other ai)) :
    ∃ n : Nat,
      (∀ (rng : List ℚ) (deadlineHit : Bool),
        chooseAiMove board gridSize winCondition ai level rng deadlineHit = some (n : Int))
      ∧ board.get? n = some none
      ∧ winnerOf (applyMove board n (other ai)) winCondition = some (other ai) := by
  have hwin_none : findImmediateWin board winCondition ai = none :=
    findImmediateWin_eq_none hnowin
  have hsome : (findImmediateWin board winCondition (other ai)).isSome :=
    findImmediateWin_isSome hb hoppwin
  obtain ⟨w, hw⟩ := Option.isSome_iff_exists.1 hsome
  obtain ⟨hwlegal, hwwin⟩ := findImmediateWin_legal hw
  have hlen0 : ¬ (legalMoves board).length = 0 :=
    fun hz => legalMoves_ne_nil ⟨b, hb⟩ (List.length_eq_zero.1 hz)
  refine ⟨w, ?_, hwlegal, hwwin⟩
  intro rng deadlineHit
  simp only [chooseAiMove, hwin_none, hw]
  rw [if_neg hlen0, if_neg hlvl]

/-- Witness for C3: X to move on `_ _ _ / _ X _ / O O _` with no X win in
one; O would win at 8, and medium returns 8 whatever the random stream. -/
theorem chooseAiMove_blocks_immediate_loss_witness :
    ∃ n : Nat,
      (∀ (rng : List ℚ) (deadlineHit : Bool),
        chooseAiMove [none, none, none, none, some Player.X, none,
          some Player.O, some Player.O, none] 3 3 Player.X
          AiLevel.medium rng deadlineHit = some (n : Int))
      ∧ [none, none, none, none, some Player.X, none,
          some Player.O, some Player.O, none].get? n = some none
      ∧ winnerOf (applyMove [none, none, none, none, some Player.X, none,
          some Player.O, some Player.O, none] n (other Player.X)) 3 =
          some (other Player.X) :=
  chooseAiMove_blocks_immediate_loss _ 3 3 Player.X AiLevel.medium (by decide)
    (by
      intro m hm
      have hlt : m < 9 := by
        by_contra hge
        rw [List.get?_eq_none.2 (Nat.le_of_not_lt hge)] at hm
        exact absurd hm (by simp)
      interval_cases m <;> revert hm <;> decide)
    8 (by decide) (by decide)

theorem easyScored_ne_nil {board : Board} {gridSize winCondition : Nat} {ai : Player}
    (hne : legalMoves board ≠ []) :
    easyScored board gridSize winCondition ai (legalMoves board) ≠ [] := by
  simp [easyScored, hne]

theorem easyScored_map_fst (board : Board) (gridSize winCondition : Nat) (ai : Player)
    (moves : List Nat) :
    (easyScored board gridSize winCondition ai moves).map Prod.fst = moves := by
  unfold easyScored
  induction moves with
  | nil => rfl
  | cons a l ih => simpa using ih

theorem easyRandomPhase_legal (board : Board) (gridSize winCondition : Nat) (ai : Player)
    (rng : List ℚ)
    (hne : legalMoves board ≠ [])
    (hrng : ∀ x ∈ rng, 0 ≤ x ∧ x < 1) :
    ∃ n : Nat,
      easyRandomPhase board gridSize winCondition ai (legalMoves board) rng = some (n : Int)
      ∧ board.get? n = some none := by
  obtain ⟨⟨hr0, hr1⟩, hrest⟩ := nextRand_bounds hrng
  obtain ⟨⟨hs0, hs1⟩, -⟩ := nextRand_bounds hrest
  have hmovpos : 0 < (legalMoves board).length := List.length_pos.2 hne
  simp only [easyRandomPhase]
  by_cases hbr : (nextRand rng).1 < 4/5
  · rw [if_pos hbr]
    obtain ⟨n, hpick, hmem⟩ :=
      pickTopK_legal (easyScored board gridSize winCondition ai (legalMoves board)) 5
        (nextRand (nextRand rng).2).1 (easyScored_ne_nil hne) (by norm_num) hs0 hs1
    refine ⟨n, ?_, ?_⟩
    · rw [hpick]
      rfl
    · rw [easyScored_map_fst] at hmem
      exact mem_legalMoves.1 hmem
  · rw [if_neg hbr]
    obtain ⟨hnn, hlt⟩ := floor_rand_index hmovpos hs0 hs1
    rw [if_neg (not_lt.2 hnn), List.get?_eq_get hlt]
    refine ⟨(legalMoves board).get ⟨_, hlt⟩, rfl, ?_⟩
    exact mem_legalMoves.1 (List.get_mem _ _ _)

theorem easyCenterPhase_legal (board : Board) (gridSize winCondition : Nat) (ai : Player)
    (rng : List ℚ)
    (hne : legalMoves board ≠ [])
    (hrng : ∀ x ∈ rng, 0 ≤ x ∧ x < 1) :
    ∃ n : Nat,
      easyCenterPhase board gridSize winCondition ai (legalMoves board) rng = some (n : Int)
      ∧ board.get? n = some none := by
  unfold easyCenterPhase
  by_cases hc : gridSize % 2 = 1 ∧ board.get? (board.length / 2) = some none
  · rw [if_pos hc]
    obtain ⟨-, hrest⟩ := nextRand_bounds hrng
    by_cases hr : (nextRand rng).1 < 9/20
    · rw [if_pos hr]
      exact ⟨board.length / 2, rfl, hc.2⟩
    · rw [if_neg hr]
      exact easyRandomPhase_legal board gridSize winCondition ai _ hne hrest
  · rw [if_neg hc]
    exact easyRandomPhase_legal board gridSize winCondition ai _ hne hrng

theorem easyMove_legal (board : Board) (gridSize winCondition : Nat) (ai : Player)
    (rng : List ℚ)
    (hne : legalMoves board ≠ [])
    (hrng : ∀ x ∈ rng, 0 ≤ x ∧ x < 1) :
    ∃ n : Nat,
      easyMove board gridSize winCondition ai (legalMoves board) rng = some (n : Int)
      ∧ board.get? n = some none := by
  rcases hfb : findImmediateWin board winCondition (other ai) with _ | mb
  · have hstep : easyMove board gridSize winCondition ai (legalMoves board) rng =
        easyCenterPhase board gridSize winCondition ai (legalMoves board) rng := by
      simp only [easyMove, hfb]
    rw [hstep]
    exact easyCenterPhase_legal board gridSize winCondition ai rng hne hrng
  · have hstep : easyMove board gridSize winCondition ai (legalMoves board) rng =
        if (nextRand rng).1 < 3/4 then some (Int.ofNat mb)
        else easyCenterPhase board gridSize winCondition ai (legalMoves board)
          (nextRand rng).2 := by
      simp only [easyMove, hfb]
    rw [hstep]
    obtain ⟨-, hrest⟩ := nextRand_bounds hrng
    by_cases hr : (nextRand rng).1 < 3/4
    · rw [if_pos hr]
      exact ⟨mb, rfl, (findImmediateWin_legal hfb).1⟩
    · rw [if_neg hr]
      exact easyCenterPhase_legal board gridSize winCondition ai _ hne hrest

theorem topKOf_pos (level : AiLevel) : 0 < topKOf level := by
  unfold topKOf
  split <;> norm_num

/-- C4: for every board with at least one empty cell, every grid size, win
condition, AI player and difficulty, and for every random stream of values
in `[0, 1)` and any wall-clock state — including a zero-width time budget
(`deadlineHit = true`) — `chooseAiMove` never errs and returns a legal
index: an in-range index whose cell is empty. -/
theorem chooseAiMove_returns_legal_move (board : Board) (gridSize winCondition : Nat)
    (ai : Player) (level : AiLevel) (rng : List ℚ) (deadlineHit : Bool)
    (hne : ∃ i, board.get? i = some none)
    (hrng : ∀ x ∈ rng, 0 ≤ x ∧ x < 1) :
    ∃ n : Nat,
      chooseAiMove board gridSize winCondition ai level rng deadlineHit = some (n : Int)
      ∧ board.get? n = some none := by
  have hmne : legalMoves board ≠ [] := legalMoves_ne_nil hne
  have hlen0 : ¬ (legalMoves board).length = 0 :=
    fun hz => hmne (List.length_eq_zero.1 hz)
  rcases hwin : findImmediateWin board winCondition ai with _ | w
  · by_cases hlvl : level = .easy
    · have hstep : chooseAiMove board gridSize winCondition ai level rng deadlineHit =
          easyMove board gridSize winCondition ai (legalMoves board) rng := by
        simp only [chooseAiMove, hwin]
        rw [if_neg hlen0, if_pos hlvl]
      rw [hstep]
      exact easyMove_legal board gridSize winCondition ai rng hmne hrng
    · rcases hblock : findImmediateWin board winCondition (other ai) with _ | b
      · have hstep : chooseAiMove board gridSize winCondition ai level rng deadlineHit =
            (pickTopK ((legalMoves board).map (fun m =>
                (m, minimaxAB gridSize winCondition ai deadlineHit
                      (applyMove board m ai) (other ai)
                      (searchDepth level gridSize (legalMoves board).length winCondition - 1)
                      ⊥ ⊤)))
              (topKOf level) (nextRand rng).1).map Int.ofNat := by
          simp only [chooseAiMove, hwin, hblock]
          rw [if_neg hlen0, if_neg hlvl]
        rw [hstep]
        obtain ⟨⟨hr0, hr1⟩, -⟩ := nextRand_bounds hrng
        have hscored_ne :
            (legalMoves board).map (fun m =>
              (m, minimaxAB gridSize winCondition ai deadlineHit
                    (applyMove board m ai) (other ai)
                    (searchDepth level gridSize (legalMoves board).length winCondition - 1)
                    ⊥ ⊤)) ≠ [] := by
          simp [hmne]
        obtain ⟨n, hpick, hmem⟩ :=
          pickTopK_legal _ (topKOf level) (nextRand rng).1 hscored_ne
            (topKOf_pos level) hr0 hr1
        refine ⟨n, ?_, ?_⟩
        · rw [hpick]
          rfl
        · rw [List.map_map] at hmem
          exact mem_legalMoves.1 (by simpa using hmem)
      · have hstep : chooseAiMove board gridSize winCondition ai level rng deadlineHit =
            some (Int.ofNat b) := by
          simp only [chooseAiMove, hwin, hblock]
          rw [if_neg hlen0, if_neg hlvl]
          rfl
        exact ⟨b, hstep, (findImmediateWin_legal hblock).1⟩
  · have hstep : chooseAiMove board gridSize winCondition ai level rng deadlineHit =
        some (Int.ofNat w) := by
      simp only [chooseAiMove, hwin]
      rw [if_neg hlen0]
    exact ⟨w, hstep, (findImmediateWin_legal hwin).1⟩

/-- Witness for C4: easy level on a one-empty-cell 3x3 board with an empty
random stream and the deadline already hit. -/
theorem chooseAiMove_returns_legal_move_witness :
    ∃ n : Nat,
      chooseAiMove [some Player.X, some Player.O, some Player.X,
        some Player.X, some Player.O, some Player.O,
        some Player.O, some Player.X, none] 3 3 Player.O
        AiLevel.easy [] true = some (n : Int)
      ∧ [some Player.X, some Player.O, some Player.X,
          some Player.X, some Player.O, some Player.O,
          some Player.O, some Player.X, none].get? n = some none :=
  chooseAiMove_returns_legal_move _ 3 3 Player.O AiLevel.easy [] true
    ⟨8, by decide⟩ (by intro x hx; exact absurd hx (List.not_mem_nil x))

theorem ite_false_decide (b : Bool) (q : Prop) [Decidable q] :
    (if b then false else decide q) = (!b && decide q) := by
  cases b <;> simp

/-- C6: `isForcedDraw` returns true exactly when neither player can still
complete any winning combination free of opponent marks within their
remaining turns under strict alternation starting with `nextPlayer`
(`⌈empty/2⌉` turns for `nextPlayer`, `⌊empty/2⌋` for the other player),
stated against the spec-side predicate `specCanComplete` on an `n × n`
board. -/
theorem isForcedDraw_iff_spec (board : Board) (winCondition : Nat) (nextPlayer : Player)
    (n : Nat) (hlen : board.length = n * n) :
    isForcedDraw board winCondition nextPlayer = true ↔
      ∀ p : Player, ¬ specCanComplete n board winCondition nextPlayer p := by
  have hsqrt : natSqrt board.length = n := by
    rw [natSqrt_eq_sqrt, hlen, Nat.sqrt_eq]
  have hguard : natSqrt board.length * natSqrt board.length = board.length := by
    rw [hsqrt, hlen]
  have key : ∀ p : Player,
      ((getWinningCombinations n winCondition).any (fun combo =>
        if combo.any (fun i => decide (board.get? i = some (some (other p)))) then false
        else decide (combo.countP (fun i => decide (board.get? i = some none)) ≤
          (if p = nextPlayer then (board.countP (fun c => c.isNone) + 1) / 2
           else board.countP (fun c => c.isNone) / 2)))) = true
      ↔ specCanComplete n board winCondition nextPlayer p := by
    intro p
    unfold specCanComplete
    simp only [List.any_eq_true, decide_eq_true_eq]
    constructor
    · rintro ⟨combo, hmem, hval⟩
      by_cases hb : ∃ i ∈ combo, board.get? i = some (some (other p))
      · rw [if_pos hb] at hval
        exact absurd hval (by simp)
      · rw [if_neg hb] at hval
        push_neg at hb
        exact ⟨combo, hmem, hb, of_decide_eq_true hval⟩
    · rintro ⟨combo, hmem, hblocked, hcount⟩
      refine ⟨combo, hmem, ?_⟩
      have hb : ¬ ∃ i ∈ combo, board.get? i = some (some (other p)) := by
        push_neg
        exact hblocked
      rw [if_neg hb]
      exact decide_eq_true hcount
  simp only [isForcedDraw, hsqrt]
  rw [if_pos (show n * n = board.length by rw [hlen])]
  rw [Bool.and_eq_true, Bool.not_eq_true', Bool.not_eq_true']
  constructor
  · rintro ⟨hX, hO⟩ p hspec
    cases p with
    | X =>
      rw [← key Player.X] at hspec
      rw [hX] at hspec
      exact absurd hspec (by simp)
    | O =>
      rw [← key Player.O] at hspec
      rw [hO] at hspec
      exact absurd hspec (by simp)
  · intro h
    constructor
    · by_contra hX
      rw [Bool.not_eq_false] at hX
      exact h Player.X ((key Player.X).1 hX)
    · by_contra hO
      rw [Bool.not_eq_false] at hO
      exact h Player.O ((key Player.O).1 hO)

/-- Witness for C6 at a drawn-but-not-full 3x3 position (cell 8 empty):
`isForcedDraw` is true and the spec-side completion test fails for both
players. -/
theorem isForcedDraw_iff_spec_witness :
    isForcedDraw [some Player.X, some Player.O, some Player.X,
      some Player.X, some Player.O, some Player.O,
      some Player.O, some Player.X, none] 3 Player.X = true ↔
    ∀ p : Player, ¬ specCanComplete 3 [some Player.X, some Player.O, some Player.X,
      some Player.X, some Player.O, some Player.O,
      some Player.O, some Player.X, none] 3 Player.X p :=
  isForcedDraw_iff_spec _ 3 Player.X 3 (by decide)

theorem length_flatMap_const {α : Type} (l : List Nat) (f : Nat → List α) (m : Nat)
    (hf : ∀ i, (f i).length = m) : (l.flatMap f).length = l.length * m := by
  induction l with
  | nil => simp
  | cons a t ih =>
    simp only [List.flatMap_cons, List.length_append, hf, ih, List.length_cons]
    ring

/-- C7: for `3 ≤ K ≤ N`, `getWinningCombinations N K` has exactly
`N(N-K+1)·2 + (N-K+1)²·2` entries, each of length `K`, and its members are
exactly the length-`K` contiguous runs of the four families, with index
step `+1` along rows, `+N` along columns, `+N+1` along ↘ diagonals and
`+N-1` along ↙ diagonals. -/
theorem getWinningCombinations_spec (N K : Nat) (h3 : 3 ≤ K) (hKN : K ≤ N) :
    (getWinningCombinations N K).length = N * (N - K + 1) * 2 + (N - K + 1) ^ 2 * 2
    ∧ (∀ combo ∈ getWinningCombinations N K, combo.length = K)
    ∧ ∀ combo, combo ∈ getWinningCombinations N K ↔
        ((∃ r < N, ∃ c < N - K + 1, combo = (List.range K).map (fun k => r * N + (c + k)))
        ∨ (∃ c < N, ∃ r < N - K + 1, combo = (List.range K).map (fun k => (r + k) * N + c))
        ∨ (∃ r < N - K + 1, ∃ c < N - K + 1,
            combo = (List.range K).map (fun k => (r + k) * N + (c + k)))
        ∨ (∃ r < N - K + 1, ∃ c < N - K + 1,
            combo = (List.range K).map (fun k => (r + k) * N + (K - 1 + c - k)))) := by
  have hM : N + 1 - K = N - K + 1 := by omega
  refine ⟨?_, ?_, ?_⟩
  · simp only [getWinningCombinations]
    rw [List.length_append, List.length_append, List.length_append,
      length_flatMap_const _ _ (N + 1 - K) (fun i => by simp),
      length_flatMap_const _ _ (N + 1 - K) (fun i => by simp),
      length_flatMap_const _ _ (N + 1 - K) (fun i => by simp),
      length_flatMap_const _ _ (N + 1 - K) (fun i => by simp)]
    simp only [List.length_range]
    rw [hM]
    ring
  · intro combo hmem
    simp only [getWinningCombinations, List.mem_append, List.mem_flatMap, List.mem_map,
      List.mem_range] at hmem
    rcases hmem with (((⟨r, hr, c, hc, rfl⟩ | ⟨c, hc, r, hr, rfl⟩) |
        ⟨r, hr, c, hc, rfl⟩) | ⟨r, hr, c, hc, rfl⟩) <;>
      simp
  · intro combo
    simp only [getWinningCombinations, List.mem_append, List.mem_flatMap, List.mem_map,
      List.mem_range, hM]
    constructor
    · rintro (((⟨r, hr, c, hc, rfl⟩ | ⟨c, hc, r, hr, rfl⟩) |
          ⟨r, hr, c, hc, rfl⟩) | ⟨r, hr, c, hc, rfl⟩)
      · exact Or.inl ⟨r, hr, c, hc, rfl⟩
      · exact Or.inr (Or.inl ⟨c, hc, r, hr, rfl⟩)
      · exact Or.inr (Or.inr (Or.inl ⟨r, hr, c, hc, rfl⟩))
      · exact Or.inr (Or.inr (Or.inr ⟨r, hr, c, hc, rfl⟩))
    · rintro (⟨r, hr, c, hc, rfl⟩ | ⟨c, hc, r, hr, rfl⟩ |
          ⟨r, hr, c, hc, rfl⟩ | ⟨r, hr, c, hc, rfl⟩)
      · exact Or.inl (Or.inl (Or.inl ⟨r, hr, c, hc, rfl⟩))
      · exact Or.inl (Or.inl (Or.inr ⟨c, hc, r, hr, rfl⟩))
      · exact Or.inl (Or.inr ⟨r, hr, c, hc, rfl⟩)
      · exact Or.inr ⟨r, hr, c, hc, rfl⟩

/-- Witness for C7 at `N = K = 3`: 8 combinations, each of length 3. -/
theorem getWinningCombinations_spec_witness :
    (getWinningCombinations 3 3).length = 3 * (3 - 3 + 1) * 2 + (3 - 3 + 1) ^ 2 * 2
    ∧ ∀ combo ∈ getWinningCombinations 3 3, combo.length = 3 :=
  ⟨(getWinningCombinations_spec 3 3 (by norm_num) (by norm_num)).1,
   (getWinningCombinations_spec 3 3 (by norm_num) (by norm_num)).2.1⟩
